import Mathlib

/-!
Shallow embedding of the core of `sergejlembke/telegram-scraper`:
the window resolvers (`scraping._to_dt`, `utils._norm_dt`), the message
fetchers (`scraping.scraping`, `utils_scraping.mining`) and the merge
exporters (`utils.export_csv`, `utils.export_json`), together with
theorems settling the specification claims about them.

Machine conventions used throughout:
* Python `datetime` values are modelled by `PyDt`: the naive wall-clock
  reading in seconds since 0000-03-01 together with an optional UTC
  offset in minutes (`none` models a naive datetime, `some o` a
  timezone-aware one with `utcoffset = o` minutes).
* Library parsing (`datetime.strptime`, `datetime.fromisoformat`,
  `pandas.to_datetime`) is modelled by executable parsers over the
  character list of the input, covering exactly the shapes these calls
  accept for the strings this program produces and consumes; every
  parser validates calendar ranges the way the Python constructors do.
-/

namespace TelegramScraper

/-! ## Calendar arithmetic (proleptic Gregorian, as Python's `datetime`) -/

def isLeapYear (y : Nat) : Bool :=
  y % 4 = 0 && (y % 100 ≠ 0 || y % 400 = 0)

def daysInMonth (y m : Nat) : Nat :=
  if m = 2 then (if isLeapYear y then 29 else 28)
  else if m = 4 || m = 6 || m = 9 || m = 11 then 30
  else 31

/-- `datetime` accepts years 1..9999 and calendar-valid month/day only. -/
def validYmd (y m d : Nat) : Bool :=
  1 ≤ y && y ≤ 9999 && 1 ≤ m && m ≤ 12 && 1 ≤ d && d ≤ daysInMonth y m

def validHms (h mi s : Nat) : Bool :=
  h ≤ 23 && mi ≤ 59 && s ≤ 59

/-- Day count of a calendar date, measured from 0000-03-01 (era-based
civil-from-days construction; total on valid dates, which all have `y ≥ 1`). -/
def daysFromCivil (y m d : Nat) : Nat :=
  let ys := if m ≤ 2 then y - 1 else y
  let era := ys / 400
  let yoe := ys % 400
  let mp := (m + 9) % 12
  let doy := (153 * mp + 2) / 5 + d - 1
  let doe := yoe * 365 + yoe / 4 - yoe / 100 + doy
  era * 146097 + doe

/-- Inverse of `daysFromCivil`, used to render dates back to text. -/
def civilFromDays (z : Nat) : Nat × Nat × Nat :=
  let era := z / 146097
  let doe := z % 146097
  let yoe := (doe - doe / 1460 + doe / 36524 - doe / 146096) / 365
  let y := yoe + era * 400
  let doy := doe - (365 * yoe + yoe / 4 - yoe / 100)
  let mp := (5 * doy + 2) / 153
  let d := doy - (153 * mp + 2) / 5 + 1
  let m := if mp < 10 then mp + 3 else mp - 9
  (if m ≤ 2 then y + 1 else y, m, d)

def secondsOf (y m d h mi s : Nat) : Int :=
  ((daysFromCivil y m d : Int) * 86400) + (h : Int) * 3600 + (mi : Int) * 60 + (s : Int)

/-! ## Python datetime values -/

/-- A Python `datetime`: naive wall-clock seconds plus optional tz offset
(minutes east of UTC); `tz = none` is a naive datetime, `tz = some 0` is
UTC-aware. -/
structure PyDt where
  wall : Int
  tz : Option Int
deriving DecidableEq, Repr

/-- The instant a datetime denotes, reading naive values at face value
(offset 0); only applied where the program guarantees awareness. -/
def PyDt.utcSeconds (d : PyDt) : Int :=
  d.wall - 60 * (d.tz.getD 0)

/-- Python `<` on datetimes: defined on naive/naive and aware/aware pairs,
a `TypeError` (here `none`) on mixed pairs. -/
def pyDtLt (a b : PyDt) : Option Bool :=
  match a.tz, b.tz with
  | none, none => some (decide (a.wall < b.wall))
  | some x, some y => some (decide (a.wall - 60 * x < b.wall - 60 * y))
  | _, _ => none

/-- The boolean the two resolvers branch on for `if end_dt < start_dt`. -/
def pyDtLtTrue (a b : PyDt) : Bool :=
  match pyDtLt a b with
  | some true => true
  | _ => false

/-! ## Character-level parsing helpers -/

def digitVal (c : Char) : Nat := c.toNat - 48

/-- Read one or two digits, greedily two, as `strptime`'s `%d`/`%m`/`%H`/`%M`/`%S`. -/
def readNum2 : List Char → Option (Nat × List Char)
  | a :: b :: rest =>
    if a.isDigit && b.isDigit then some (digitVal a * 10 + digitVal b, rest)
    else if a.isDigit then some (digitVal a, b :: rest)
    else none
  | [a] => if a.isDigit then some (digitVal a, []) else none
  | [] => none

/-- Read exactly two digits, as the ISO parser requires. -/
def readNum2Exact : List Char → Option (Nat × List Char)
  | a :: b :: rest =>
    if a.isDigit && b.isDigit then some (digitVal a * 10 + digitVal b, rest)
    else none
  | _ => none

/-- Read exactly four digits, as `strptime`'s `%Y` and the ISO year. -/
def readNum4 : List Char → Option (Nat × List Char)
  | a :: b :: c :: d :: rest =>
    if a.isDigit && b.isDigit && c.isDigit && d.isDigit then
      some (digitVal a * 1000 + digitVal b * 100 + digitVal c * 10 + digitVal d, rest)
    else none
  | _ => none

def expectChar (c : Char) : List Char → Option (List Char)
  | a :: rest => if a = c then some rest else none
  | [] => none

def isSpaceChar (c : Char) : Bool :=
  c = ' ' || c = '\t' || c = '\n' || c = '\r'

/-- Python `str.strip()` on the character list. -/
def stripChars (cs : List Char) : List Char :=
  ((cs.dropWhile isSpaceChar).reverse.dropWhile isSpaceChar).reverse

/-! ## The six `strptime` formats used by `_to_dt` and `_norm_dt` -/

/-- `%Y-%m-%d` date part (also used, with `sep`, for the `%d.%m.%Y` family). -/
def parseDateYmd (cs : List Char) : Option ((Nat × Nat × Nat) × List Char) := do
  let (y, cs) ← readNum4 cs
  let cs ← expectChar '-' cs
  let (m, cs) ← readNum2 cs
  let cs ← expectChar '-' cs
  let (d, cs) ← readNum2 cs
  if validYmd y m d then some ((y, m, d), cs) else none

/-- `%d.%m.%Y` date part. -/
def parseDateDmy (cs : List Char) : Option ((Nat × Nat × Nat) × List Char) := do
  let (d, cs) ← readNum2 cs
  let cs ← expectChar '.' cs
  let (m, cs) ← readNum2 cs
  let cs ← expectChar '.' cs
  let (y, cs) ← readNum4 cs
  if validYmd y m d then some ((y, m, d), cs) else none

/-- ` %H:%M` tail. -/
def parseTimeHM (cs : List Char) : Option ((Nat × Nat) × List Char) := do
  let cs ← expectChar ' ' cs
  let (h, cs) ← readNum2 cs
  let cs ← expectChar ':' cs
  let (mi, cs) ← readNum2 cs
  if validHms h mi 0 then some ((h, mi), cs) else none

/-- ` %H:%M:%S` tail. -/
def parseTimeHMS (cs : List Char) : Option ((Nat × Nat × Nat) × List Char) := do
  let cs ← expectChar ' ' cs
  let (h, cs) ← readNum2 cs
  let cs ← expectChar ':' cs
  let (mi, cs) ← readNum2 cs
  let cs ← expectChar ':' cs
  let (s, cs) ← readNum2 cs
  if validHms h mi s then some ((h, mi, s), cs) else none

/-- One `strptime` attempt: the date parser plus an optional fixed time
tail, requiring the whole input to be consumed. -/
def runFormat (dateP : List Char → Option ((Nat × Nat × Nat) × List Char))
    (timeTail : Nat) (cs : List Char) : Option Int := do
  let ((y, m, d), cs) ← dateP cs
  match timeTail with
  | 0 => if cs = [] then some (secondsOf y m d 0 0 0) else none
  | 1 => do
    let ((h, mi), cs) ← parseTimeHM cs
    if cs = [] then some (secondsOf y m d h mi 0) else none
  | _ => do
    let ((h, mi, s), cs) ← parseTimeHMS cs
    if cs = [] then some (secondsOf y m d h mi s) else none

/-- The ordered format list of `_to_dt`/`_norm_dt`:
`%Y-%m-%d`, `%Y-%m-%d %H:%M`, `%Y-%m-%d %H:%M:%S`,
`%d.%m.%Y`, `%d.%m.%Y %H:%M`, `%d.%m.%Y %H:%M:%S`,
tried in order with the first success returned. -/
def tryFormats (cs : List Char) : Option Int :=
  (runFormat parseDateYmd 0 cs).orElse fun _ =>
  (runFormat parseDateYmd 1 cs).orElse fun _ =>
  (runFormat parseDateYmd 2 cs).orElse fun _ =>
  (runFormat parseDateDmy 0 cs).orElse fun _ =>
  (runFormat parseDateDmy 1 cs).orElse fun _ =>
  (runFormat parseDateDmy 2 cs)

/-! ## `datetime.fromisoformat` fallback (the subset this program meets:
a padded date, an optional ' '/'T' separator with `HH:MM[:SS]`, and an
optional `Z` or `±HH:MM` offset). -/

def parseIsoDate (cs : List Char) : Option ((Nat × Nat × Nat) × List Char) := do
  let (y, cs) ← readNum4 cs
  let cs ← expectChar '-' cs
  let (m, cs) ← readNum2Exact cs
  let cs ← expectChar '-' cs
  let (d, cs) ← readNum2Exact cs
  if validYmd y m d then some ((y, m, d), cs) else none

def parseIsoOffset : List Char → Option Int
  | [] => none
  | 'Z' :: rest => if rest = [] then some 0 else none
  | sign :: rest =>
    if sign = '+' || sign = '-' then do
      let (h, rest) ← readNum2Exact rest
      let rest ← expectChar ':' rest
      let (mi, rest) ← readNum2Exact rest
      if rest = [] && h ≤ 23 && mi ≤ 59 then
        some (if sign = '+' then (h * 60 + mi : Int) else -(h * 60 + mi : Int))
      else none
    else none

def parseIsoTime (cs : List Char) : Option ((Nat × Nat × Nat) × List Char) := do
  let (h, cs) ← readNum2Exact cs
  let cs ← expectChar ':' cs
  let (mi, cs) ← readNum2Exact cs
  match expectChar ':' cs with
  | some cs2 => do
    let (s, cs3) ← readNum2Exact cs2
    if validHms h mi s then some ((h, mi, s), cs3) else none
  | none => if validHms h mi 0 then some ((h, mi, 0), cs) else none

/-- Model of `datetime.fromisoformat` on the strings this program
produces and accepts. -/
def pyFromIso (cs : List Char) : Option PyDt := do
  let ((y, m, d), cs) ← parseIsoDate cs
  match cs with
  | [] => some ⟨secondsOf y m d 0 0 0, none⟩
  | sep :: rest =>
    if sep = 'T' || sep = ' ' then do
      let ((h, mi, s), rest) ← parseIsoTime rest
      if rest = [] then some ⟨secondsOf y m d h mi s, none⟩
      else do
        let off ← parseIsoOffset rest
        some ⟨secondsOf y m d h mi s, some off⟩
    else none

/-! ## Rendering datetimes back to text (Python `str(datetime)` and
`strftime('%Y-%m-%d')`) -/

def digitChar (n : Nat) : Char := Char.ofNat (48 + n)

def pad2 (n : Nat) : List Char := [digitChar (n / 10 % 10), digitChar (n % 10)]

def pad4 (n : Nat) : List Char :=
  [digitChar (n / 1000 % 10), digitChar (n / 100 % 10), digitChar (n / 10 % 10),
   digitChar (n % 10)]

/-- `str(datetime)`: `YYYY-MM-DD HH:MM:SS` with a `±HH:MM` suffix when the value
is timezone-aware (this program renders no microseconds). -/
def dtChars (dt : PyDt) : List Char :=
  let t := dt.wall.toNat
  let (y, m, d) := civilFromDays (t / 86400)
  let sod := t % 86400
  let datePart :=
    pad4 y ++ '-' :: pad2 m ++ '-' :: pad2 d ++ ' ' ::
    pad2 (sod / 3600) ++ ':' :: pad2 (sod / 60 % 60) ++ ':' :: pad2 (sod % 60)
  match dt.tz with
  | none => datePart
  | some o =>
    if 0 ≤ o then datePart ++ '+' :: pad2 (o.toNat / 60) ++ ':' :: pad2 (o.toNat % 60)
    else datePart ++ '-' :: pad2 ((-o).toNat / 60) ++ ':' :: pad2 ((-o).toNat % 60)

def dtStr (dt : PyDt) : String := String.mk (dtChars dt)

/-- `strftime('%Y-%m-%d')` of an instant, the date-only rendering used in
artifact filenames. -/
def fmtDateChars (secs : Int) : List Char :=
  let (y, m, d) := civilFromDays (secs.toNat / 86400)
  pad4 y ++ '-' :: pad2 m ++ '-' :: pad2 d

/-- Model of `pandas.to_datetime(·, errors='coerce')` on a single DATE cell,
reduced to the instant it denotes (UTC seconds, naive values read at face
value); `none` models `NaT`. -/
def parsePdDate (s : String) : Option Int :=
  (pyFromIso s.data).map PyDt.utcSeconds

/-! ## The two window resolvers -/

/-- A raw `start_date`/`end_date` argument: free text or a pre-parsed
datetime (`None` is modelled by `Option` at the call sites). -/
inductive RawVal where
  | str (s : String)
  | dt (d : PyDt)
deriving DecidableEq, Repr

/-- The `ValueError` raised by `scraping._to_dt`, carrying the offending
input text. -/
inductive DateError where
  | unrecognized (s : String)
deriving DecidableEq, Repr

/-- `scraping._to_dt`: absent/blank input takes the default; text is tried
against the six formats (result made aware in UTC via
`replace(tzinfo=timezone.utc)`), then against `fromisoformat` (naive results
made UTC via `replace`, aware ones converted via `astimezone(utc)`); anything
else raises `Unrecognized date format`. Pre-parsed datetimes are normalized
to aware UTC the same way. -/
def pyToDt (val : Option RawVal) (dflt : PyDt) : Except DateError PyDt :=
  match val with
  | none => .ok dflt
  | some (.str s) =>
    let v := stripChars s.data
    if v = [] then .ok dflt
    else
      match tryFormats v with
      | some secs => .ok ⟨secs, some 0⟩
      | none =>
        match pyFromIso v with
        | some d =>
          match d.tz with
          | none => .ok ⟨d.wall, some 0⟩
          | some o => .ok ⟨d.wall - 60 * o, some 0⟩
        | none => .error (.unrecognized s)
  | some (.dt d) =>
    match d.tz with
    | none => .ok ⟨d.wall, some 0⟩
    | some o => .ok ⟨d.wall - 60 * o, some 0⟩

/-- `utils._norm_dt`: same format cascade but results are left exactly as
parsed (`strptime` results stay naive, `fromisoformat` results keep their own
offset), pre-parsed datetimes pass through, and every failure silently
returns the default. -/
def normDt (val : Option RawVal) (dflt : PyDt) : PyDt :=
  match val with
  | none => dflt
  | some (.str s) =>
    let v := stripChars s.data
    if v = [] then dflt
    else
      match tryFormats v with
      | some secs => ⟨secs, none⟩
      | none =>
        match pyFromIso v with
        | some d => d
        | none => dflt
  | some (.dt d) => d

/-- The window computed inside `scraping.scraping`: `_to_dt` on both bounds
(defaults `today 00:00 UTC` and `now UTC`, both aware) followed by the
`if end_dt < start_dt: swap` step. -/
def resolveScrapingWindow (startRaw endRaw : Option RawVal)
    (todaySecs nowSecs : Int) : Except DateError (PyDt × PyDt) := do
  let s ← pyToDt startRaw ⟨todaySecs, some 0⟩
  let e ← pyToDt endRaw ⟨nowSecs, some 0⟩
  if pyDtLtTrue e s then pure (e, s) else pure (s, e)

/-- The filename window computed inside `utils.start`: `_norm_dt` on both
bounds (defaults `today 00:00` and `now`, both naive) followed by the same
swap step. Python raises `TypeError` when the comparison mixes naive and
aware values; `pyDtLtTrue` returns `false` there, and that branch is only
reached on inputs mixing the two kinds. -/
def resolveNormWindow (startRaw endRaw : Option RawVal)
    (todaySecs nowSecs : Int) : PyDt × PyDt :=
  let s := normDt startRaw ⟨todaySecs, none⟩
  let e := normDt endRaw ⟨nowSecs, none⟩
  if pyDtLtTrue e s then (e, s) else (s, e)

/-- The date-resolution sequencing of `utils.start`: `scraping()` is called
first (its `_to_dt` may raise, aborting the run for the target), and only
after it returns does `start` compute the filename window with `_norm_dt`;
an input that `_to_dt` rejects therefore never reaches `_norm_dt`'s silent
default branch. -/
def startResolveSeq (startRaw endRaw : Option RawVal)
    (todayUtc nowUtc todayNaive nowNaive : Int) :
    Except DateError ((PyDt × PyDt) × (PyDt × PyDt)) := do
  let w ← resolveScrapingWindow startRaw endRaw todayUtc nowUtc
  pure (w, resolveNormWindow startRaw endRaw todayNaive nowNaive)

/-! ## The message fetchers -/

/-- A message as yielded by the source: Telethon guarantees `date` is
timezone-aware UTC, kept here as the instant in seconds; `text = ""` covers
both Python `''` and `None`; sender resolution and media download are
opaque collaborators, pre-resolved into `senderName` and the two
attachment flags. -/
structure Msg where
  id : Int
  date : Int
  senderId : Int
  senderName : String
  text : String
  hasPhoto : Bool
  videoMp4 : Bool
deriving DecidableEq, Repr

/-- One extracted row, in the `data.append([...])` field order. -/
structure Row where
  sender_name : String
  sender_id : Int
  message_id : Int
  date : Int
  message : String
  translated : String
  media_path : String
deriving DecidableEq, Repr

/-- The opaque translator collaborator: may fail. -/
abbrev Translator := String → Except Unit String

def identityTranslator : Translator := fun s => .ok s

def failingTranslator : Translator := fun _ => .error ()

/-- Media path chosen by `scraping.scraping` for one message. -/
def scrapingMediaPath (cwd chat : String) (m : Msg) : String :=
  if m.hasPhoto then cwd ++ "/" ++ chat ++ "_photo_" ++ toString m.id ++ ".jpg"
  else if m.videoMp4 then cwd ++ "/" ++ chat ++ "_video_" ++ toString m.id ++ ".mp4"
  else ""

/-- Enrichment of one accepted message in `scraping.scraping`, returning the
row together with the list of texts handed to the translator. The translated
text is computed from `message.text or ''` inside a `try/except` that falls
back to `''`. -/
def scrapeStep (tr : Translator) (translateOpt : Bool) (cwd chat : String)
    (m : Msg) : Row × List String :=
  let textToTranslate := if m.text = "" then "" else m.text
  let calls := if translateOpt then [textToTranslate] else []
  let translated :=
    if translateOpt then
      match tr textToTranslate with
      | .ok t => t
      | .error _ => ""
    else ""
  (⟨m.senderName, m.senderId, m.id, m.date, m.text, translated,
    scrapingMediaPath cwd chat m⟩, calls)

/-- The iteration of `scraping.scraping` over
`iter_messages(offset_date=start_dt, reverse=True)`: break once past
`end_dt`, skip anything before `start_dt`, otherwise enrich and accept. -/
def scrapeLoop (tr : Translator) (translateOpt : Bool) (cwd chat : String)
    (startS endS : Int) : List Msg → List Row × List String
  | [] => ([], [])
  | m :: rest =>
    if endS < m.date then ([], [])
    else if m.date < startS then scrapeLoop tr translateOpt cwd chat startS endS rest
    else
      let (row, calls) := scrapeStep tr translateOpt cwd chat m
      let (rows, logs) := scrapeLoop tr translateOpt cwd chat startS endS rest
      (row :: rows, calls ++ logs)

/-- `scraping.scraping`: resolve the window, walk the source, and return
`(data, empty)` where `empty` is `data == []`. -/
def scrapingRun (tr : Translator) (translateOpt : Bool) (cwd chat : String)
    (startRaw endRaw : Option RawVal) (todaySecs nowSecs : Int)
    (source : List Msg) : Except DateError (List Row × Bool) := do
  let (s, e) ← resolveScrapingWindow startRaw endRaw todaySecs nowSecs
  let (rows, _) := scrapeLoop tr translateOpt cwd chat s.utcSeconds e.utcSeconds source
  pure (rows, rows.isEmpty)

/-- The placeholder `utils_scraping.mining` substitutes for empty texts
(spelling preserved from the source). -/
def placeholderText : String := "[THIS MESSSAGE CONTAINS NO TEXT]"

/-- Python `<` on strings: lexicographic comparison by code point. -/
def lexLt : List Char → List Char → Bool
  | [], [] => false
  | [], _ :: _ => true
  | _ :: _, [] => false
  | a :: as, b :: bs =>
    if a.toNat < b.toNat then true
    else if b.toNat < a.toNat then false
    else lexLt as bs

/-- Media path chosen by `mining` for one message (note the missing
underscore before `photo`, as in the source). -/
def miningMediaPath (cwd project : String) (m : Msg) : String :=
  if m.hasPhoto then cwd ++ "/" ++ project ++ "photo_" ++ toString m.id ++ ".jpg"
  else if m.videoMp4 then cwd ++ "/" ++ project ++ "_video_" ++ toString m.id ++ ".mp4"
  else ""

/-- The iteration of `utils_scraping.mining` over `iter_messages(min_id=0)`
(newest first): break when `str(message.date) < str(end_date)`, otherwise
substitute the placeholder for empty text and translate it with **no**
exception handler, so a translator failure propagates and aborts the run.
Accepted rows are appended in iteration order and never reversed. -/
def miningLoop (tr : Translator) (cwd project : String) (endChars : List Char) :
    List Msg → Except Unit (List Row × List String)
  | [] => .ok ([], [])
  | m :: rest =>
    if lexLt (dtChars ⟨m.date, some 0⟩) endChars then .ok ([], [])
    else do
      let text := if m.text = "" then placeholderText else m.text
      let translated ← tr text
      let (rows, calls) ← miningLoop tr cwd project endChars rest
      pure (⟨m.senderName, m.senderId, m.id, m.date, text, translated,
             miningMediaPath cwd project m⟩ :: rows, text :: calls)

/-- `utils_scraping.mining`: the cut-off is `today 00:00 - days_back` as a
naive datetime; the loop result is returned with the `empty` flag. -/
def miningRun (tr : Translator) (cwd project : String) (daysBack : Nat)
    (todayStartSecs : Int) (source : List Msg) :
    Except Unit (List Row × Bool) := do
  let endDate : PyDt := ⟨todayStartSecs - (daysBack : Int) * 86400, none⟩
  let (rows, _) ← miningLoop tr cwd project (dtChars endDate) source
  pure (rows, rows.isEmpty)

/-! ## Artifact records and the merge exporters -/

/-- One persisted record, in the fixed column order of both exporters.
`DATE` is a string in the artifact (CSV serialization / `str(row[3])`). -/
structure Item where
  SENDER_NAME : String
  SENDER_ID : Int
  MESSAGE_ID : Int
  DATE : String
  MESSAGE : String
  TRANSLATED_MESSAGE : String
  MEDIA_PATH : String
deriving DecidableEq, Repr

/-- Serialization of one fetched row into its artifact record: the datetime
is rendered with `str` (Telethon dates are aware UTC). -/
def rowToItem (r : Row) : Item :=
  ⟨r.sender_name, r.sender_id, r.message_id, dtStr ⟨r.date, some 0⟩,
   r.message, r.translated, r.media_path⟩

/-- `DataFrame.drop_duplicates(subset=['MESSAGE_ID'])`: keep the first
occurrence of each id, scanning left to right with the seen-id set. -/
def dedupByIdAux (seen : List Int) : List Item → List Item
  | [] => []
  | x :: rest =>
    if x.MESSAGE_ID ∈ seen then dedupByIdAux seen rest
    else x :: dedupByIdAux (x.MESSAGE_ID :: seen) rest

def dedupById (l : List Item) : List Item := dedupByIdAux [] l

/-- The record set `export_csv` persists: without a prior artifact it is the
new batch as-is; with one it is `concat([df_existing, df_new])` followed by
`drop_duplicates(subset=['MESSAGE_ID'])` — and no re-sorting. -/
def csvExportRecords (prior : Option (List Item)) (rows : List Row) : List Item :=
  match prior with
  | none => rows.map rowToItem
  | some ex => dedupById (ex ++ rows.map rowToItem)

/-- Python-dict upsert for `new_data[id] = row`: an existing key keeps its
position and takes the new value, a fresh key is appended. The source keys
the dict by `str(row[2])`; `str` is injective on integers, so the dict is
modelled keyed by the integer id itself. -/
def dictUpsert (d : List (Int × Item)) (k : Int) (v : Item) : List (Int × Item) :=
  if d.any (fun e => e.1 = k) then
    d.map (fun e => if e.1 = k then (e.1, v) else e)
  else d ++ [(k, v)]

/-- `new_data = {str(row[2]): row for row in data}` (insertion-ordered). -/
def jsonNewData (rows : List Row) : List (Int × Item) :=
  rows.foldl (fun d r => dictUpsert d r.message_id (rowToItem r)) []

/-- The merge loop of `export_json`: each prior-artifact record is added only
`if msg_id not in new_data`, so the new batch's copy of a shared id wins. -/
def jsonAddExisting (d : List (Int × Item)) (existing : List Item) :
    List (Int × Item) :=
  existing.foldl
    (fun d it =>
      if d.any (fun e => e.1 = it.MESSAGE_ID) then d
      else d ++ [(it.MESSAGE_ID, it)]) d

/-! ### The chronological sort of `export_json` -/

/-- A sort key as built by the source: `timestamp()` seconds for a parsable
DATE, `float('inf')` (here `none`) for `NaT`. -/
abbrev SortKey := Option Int

/-- Order on sort keys: finite values by magnitude, `inf` after everything. -/
def keyLE (a b : SortKey) : Bool :=
  match a, b with
  | some x, some y => decide (x ≤ y)
  | some _, none => true
  | none, some _ => false
  | none, none => true

def itemKey (it : Item) : SortKey := parsePdDate it.DATE

/-- The `_keys` / `zip(_keys, final_data)` pairing: `_keys` is built by one
pass over `final_data`, so zipping it back yields exactly this map. -/
def buildPairs (items : List Item) : List (SortKey × Item) :=
  items.map (fun it => (itemKey it, it))

/-- Stable insertion into a key-sorted list: the new pair goes after every
pair with a key `≤` its own, which is how Python's stable `sorted` orders
ties — by original position. -/
def insertByKey (p : SortKey × Item) : List (SortKey × Item) → List (SortKey × Item)
  | [] => [p]
  | q :: rest => if keyLE q.1 p.1 then q :: insertByKey p rest else p :: q :: rest

/-- Stable sort by key, modelling `sorted(zip(_keys, final_data), key=fst)`. -/
def sortPairs (l : List (SortKey × Item)) : List (SortKey × Item) :=
  l.foldl (fun acc p => insertByKey p acc) []

/-- The whole `try` block around the chronological sort of `export_json`. -/
def jsonSortStep (items : List Item) : List Item :=
  (sortPairs (buildPairs items)).map (fun p => p.2)

/-- The `try/except` guard: the sort attempt may raise (e.g. the pandas
import); on failure the merged order is left as-is. -/
def jsonSortSafe (attempt : Except Unit (List Item)) (items : List Item) :
    List Item :=
  match attempt with
  | .ok l => l
  | .error _ => items

/-- The record set `export_json` persists: the keyed union (new batch first,
prior records appended under fresh ids only) sorted chronologically. -/
def jsonExportRecords (prior : Option (List Item)) (rows : List Row) : List Item :=
  let nd := jsonNewData rows
  let merged :=
    match prior with
    | none => nd
    | some ex => jsonAddExisting nd ex
  jsonSortSafe (.ok (jsonSortStep (merged.map (fun e => e.2))))
    (merged.map (fun e => e.2))

/-- Adjacent chronological order of an artifact by parsed DATE. -/
def dateLeB (a b : Item) : Bool := keyLE (itemKey a) (itemKey b)

def chainDateLe : List Item → Bool
  | [] => true
  | [_] => true
  | a :: b :: rest => dateLeB a b && chainDateLe (b :: rest)

/-! ## The filesystem layer of the two exporters -/

/-- Artifact filenames, as their character lists. -/
abbrev FName := List Char

/-- One target directory: filenames with their parsed record contents. -/
abbrev Fs := List (FName × List Item)

/-- The glob pattern `{chat}_data_*.{ext}`: the fixed head, the fixed
extension, and no overlap between the two. -/
def matchPatB (pre ext n : FName) : Bool :=
  decide (pre <+: n) && decide (ext <:+ n) && decide (pre.length + ext.length ≤ n.length)

def namePre (chat : String) : FName := chat.data ++ ("_data_").data

def csvExt : FName := (".csv").data

def jsonExt : FName := (".json").data

def lookupFs (fs : Fs) (n : FName) : Option (List Item) :=
  (fs.find? (fun e => e.1 = n)).map (fun e => e.2)

def fsRemove (fs : Fs) (n : FName) : Fs :=
  fs.filter (fun e => e.1 ≠ n)

/-- Writing a file: replaces any entry under the same name. -/
def fsWrite (fs : Fs) (n : FName) (v : List Item) : Fs :=
  fsRemove fs n ++ [(n, v)]

/-- `os.replace(old, new)`: move, overwriting `new` when present (`old`
always exists at the call sites, having come from the glob). -/
def fsRename (fs : Fs) (old new : FName) : Fs :=
  fsWrite (fsRemove fs old) new ((lookupFs fs old).getD [])

/-- `sorted(glob.glob(pattern), reverse=True)[0]`: the lexicographically
last matching path (the shared directory prefix cancels). -/
def maxName (l : List FName) : Option FName :=
  l.foldl
    (fun acc n =>
      match acc with
      | none => some n
      | some b => if lexLt b n then some n else some b) none

/-- The middle part of a recomputed range filename: `min_str ++ "_" ++
max_str`, where an all-`NaT` column degrades each side to `unknown`
(`_fmt_dt(min_dt) or 'unknown'`), and min/max skip unparsable cells the way
pandas `min`/`max` skip `NaT`. -/
def rangeMid (recs : List Item) : FName :=
  match recs.filterMap (fun it => parsePdDate it.DATE) with
  | [] => ("unknown_unknown").data
  | k :: ks =>
    fmtDateChars (ks.foldl min k) ++ '_' :: fmtDateChars (ks.foldl max k)

/-- The shared append-mode file dance of both exporters: find the latest
matching artifact; with none, write the fresh name; with one, merge its
records, rename it to the recomputed range name when that differs, and
write the merged records there. -/
def appendWrite (pre ext freshMid : FName) (freshRecs : List Item)
    (mergeF : List Item → List Item) (fs : Fs) : Fs :=
  match maxName ((fs.map (fun e => e.1)).filter (matchPatB pre ext)) with
  | none => fsWrite fs (pre ++ freshMid ++ ext) freshRecs
  | some latest =>
    let merged := mergeF ((lookupFs fs latest).getD [])
    let newName := pre ++ rangeMid merged ++ ext
    let fs1 := if latest = newName then fs else fsRename fs latest newName
    fsWrite fs1 newName merged

/-- `utils.export_csv` at the file level: a no-op on an empty batch;
non-append (or append with no prior artifact) writes the suffix-named file;
append merges into the latest matching artifact and renames it to the
recomputed date range. -/
def exportCsvFs (empty append : Bool) (chat suffix : String) (rows : List Row)
    (fs : Fs) : Fs :=
  if empty then fs
  else if append then
    appendWrite (namePre chat) csvExt suffix.data (csvExportRecords none rows)
      (fun ex => csvExportRecords (some ex) rows) fs
  else fsWrite fs (namePre chat ++ suffix.data ++ csvExt) (csvExportRecords none rows)

/-- `utils.export_json` at the file level: as for CSV, except that records
are always the sorted keyed union and an append run with no prior artifact
already writes under the recomputed range name (`output_path = latest_file
or candidate`). -/
def exportJsonFs (empty append : Bool) (chat suffix : String) (rows : List Row)
    (fs : Fs) : Fs :=
  if empty then fs
  else if append then
    appendWrite (namePre chat) jsonExt (rangeMid (jsonExportRecords none rows))
      (jsonExportRecords none rows)
      (fun ex => jsonExportRecords (some ex) rows) fs
  else fsWrite fs (namePre chat ++ suffix.data ++ jsonExt) (jsonExportRecords none rows)

/-- How many live artifacts a directory holds for one target and format. -/
def countMatch (pre ext : FName) (fs : Fs) : Nat :=
  ((fs.map (fun e => e.1)).filter (matchPatB pre ext)).length

/-! ## Concrete fixtures for witnesses and counterexamples -/

/-- 2024-01-10 00:00 UTC, a reference instant for the fetcher fixtures. -/
def tJan10 : Int := secondsOf 2024 1 10 0 0 0

def msgJan8 : Msg := ⟨101, secondsOf 2024 1 8 9 0 0, 7, "S", "hello", false, false⟩

def msgJan9 : Msg := ⟨102, secondsOf 2024 1 9 9 0 0, 7, "S", "world", false, false⟩

def msgNoText : Msg := ⟨103, secondsOf 2024 1 9 10 0 0, 7, "S", "", false, false⟩

def rowJan1 : Row := ⟨"A", 7, 1, secondsOf 2024 1 1 8 0 0, "jan", "", ""⟩

def rowJan2 : Row := ⟨"B", 7, 2, secondsOf 2024 1 2 12 0 0, "janbis", "", ""⟩

/-- A fresh copy of message id 1 with different body text, for the
shared-id merge fixtures. -/
def rowNew1 : Row := ⟨"A", 7, 1, secondsOf 2024 1 1 8 0 0, "new", "", ""⟩

/-- A prior-artifact record for message id 1 with the older body text. -/
def itemOld1 : Item := ⟨"A", 7, 1, "2024-01-01 08:00:00+00:00", "old", "", ""⟩

/-- A prior-artifact record dated 2024-02-01, later than the fixture rows. -/
def itemFeb : Item := rowToItem ⟨"C", 7, 9, secondsOf 2024 2 1 0 0 0, "feb", "", ""⟩

def fsTwoCsv : Fs :=
  [(("c_data_2024-01-01_2024-01-01.csv").data, [itemOld1]),
   (("c_data_2024-02-02_2024-02-02.csv").data, [itemFeb])]

def fsOneCsv : Fs := [(("c_data_2024-01-01_2024-01-01.csv").data, [itemOld1])]

/-! ## Lemmas about the stable chronological sort -/

theorem keyLE_refl (a : SortKey) : keyLE a a = true := by
  cases a <;> simp [keyLE]

theorem keyLE_total (a b : SortKey) : keyLE a b = true ∨ keyLE b a = true := by
  cases a <;> cases b <;> simp [keyLE] <;> omega

theorem keyLE_trans {a b c : SortKey} (h1 : keyLE a b = true)
    (h2 : keyLE b c = true) : keyLE a c = true := by
  cases a <;> cases b <;> cases c <;> simp [keyLE] at * <;> omega

theorem insertByKey_length (p : SortKey × Item) (l : List (SortKey × Item)) :
    (insertByKey p l).length = l.length + 1 := by
  induction l with
  | nil => rfl
  | cons q rest ih =>
    by_cases h : keyLE q.1 p.1 = true <;> simp [insertByKey, h, ih]

theorem insertByKey_mem {x p : SortKey × Item} {l : List (SortKey × Item)} :
    x ∈ insertByKey p l ↔ x = p ∨ x ∈ l := by
  induction l with
  | nil => simp [insertByKey]
  | cons q rest ih =>
    by_cases h : keyLE q.1 p.1 = true <;> simp [insertByKey, h, ih] <;> tauto

theorem insertByKey_pairwise {p : SortKey × Item} {l : List (SortKey × Item)}
    (hl : l.Pairwise (fun a b => keyLE a.1 b.1 = true)) :
    (insertByKey p l).Pairwise (fun a b => keyLE a.1 b.1 = true) := by
  induction l with
  | nil => simp [insertByKey]
  | cons q rest ih =>
    rcases List.pairwise_cons.mp hl with ⟨hq, hrest⟩
    by_cases h : keyLE q.1 p.1 = true
    · simp only [insertByKey, h, if_pos]
      refine List.pairwise_cons.mpr ⟨?_, ih hrest⟩
      intro x hx
      rcases insertByKey_mem.mp hx with rfl | hx
      · exact h
      · exact hq x hx
    · simp only [insertByKey, h, if_neg, Bool.not_eq_true]
      have hpq : keyLE p.1 q.1 = true := by
        rcases keyLE_total q.1 p.1 with h1 | h1
        · exact absurd h1 h
        · exact h1
      refine List.pairwise_cons.mpr ⟨?_, hl⟩
      intro x hx
      rcases List.mem_cons.mp hx with rfl | hx
      · exact hpq
      · exact keyLE_trans hpq (hq x hx)

theorem insertByKey_filter_key {p : SortKey × Item} {l : List (SortKey × Item)}
    (hl : l.Pairwise (fun a b => keyLE a.1 b.1 = true)) (k : SortKey) :
    (insertByKey p l).filter (fun q => q.1 = k)
      = l.filter (fun q => q.1 = k) ++ (if p.1 = k then [p] else []) := by
  induction l with
  | nil => by_cases hp : p.1 = k <;> simp [insertByKey, hp]
  | cons q rest ih =>
    rcases List.pairwise_cons.mp hl with ⟨hq, hrest⟩
    by_cases h : keyLE q.1 p.1 = true
    · simp only [insertByKey, if_pos h]
      by_cases hqk : q.1 = k <;>
        simp [hqk, List.filter_cons, ih hrest]
    · simp only [insertByKey, h, if_neg, Bool.not_eq_true]
      by_cases hp : p.1 = k
      · subst hp
        have hqk : ¬ q.1 = p.1 := by
          intro hq1
          exact h (hq1 ▸ keyLE_refl p.1)
        have hrestk : rest.filter (fun r => r.1 = p.1) = [] := by
          refine List.filter_eq_nil_iff.mpr ?_
          intro r hr
          simp only [decide_eq_true_eq]
          intro hrk
          exact h (hrk ▸ hq r hr)
        simp [List.filter_cons, hqk, hrestk]
      · by_cases hqk : q.1 = k <;> simp [List.filter_cons, hp, hqk]

theorem sortPairsAux_pairwise (l : List (SortKey × Item))
    (acc : List (SortKey × Item))
    (hacc : acc.Pairwise (fun a b => keyLE a.1 b.1 = true)) :
    (l.foldl (fun acc p => insertByKey p acc) acc).Pairwise
      (fun a b => keyLE a.1 b.1 = true) := by
  induction l generalizing acc with
  | nil => exact hacc
  | cons p rest ih => exact ih _ (insertByKey_pairwise hacc)

theorem sortPairsAux_filter_key (l : List (SortKey × Item))
    (acc : List (SortKey × Item))
    (hacc : acc.Pairwise (fun a b => keyLE a.1 b.1 = true)) (k : SortKey) :
    (l.foldl (fun acc p => insertByKey p acc) acc).filter (fun q => q.1 = k)
      = acc.filter (fun q => q.1 = k) ++ l.filter (fun q => q.1 = k) := by
  induction l generalizing acc with
  | nil => simp
  | cons p rest ih =>
    have step := ih (insertByKey p acc) (insertByKey_pairwise hacc)
    rw [List.foldl_cons, step, insertByKey_filter_key hacc k, List.filter_cons]
    by_cases hp : p.1 = k <;> simp [hp]

theorem sortPairs_pairwise (l : List (SortKey × Item)) :
    (sortPairs l).Pairwise (fun a b => keyLE a.1 b.1 = true) :=
  sortPairsAux_pairwise l [] (List.Pairwise.nil)

theorem sortPairs_filter_key (l : List (SortKey × Item)) (k : SortKey) :
    (sortPairs l).filter (fun q => q.1 = k) = l.filter (fun q => q.1 = k) :=
  sortPairsAux_filter_key l [] (List.Pairwise.nil) k

theorem sortPairsAux_length (l : List (SortKey × Item))
    (acc : List (SortKey × Item)) :
    (l.foldl (fun acc p => insertByKey p acc) acc).length = acc.length + l.length := by
  induction l generalizing acc with
  | nil => rfl
  | cons p rest ih =>
    rw [List.foldl_cons, ih, insertByKey_length, List.length_cons]
    omega

theorem sortPairs_length (l : List (SortKey × Item)) :
    (sortPairs l).length = l.length := by
  rw [sortPairs, sortPairsAux_length]
  simp

theorem sortPairsAux_mem {x : SortKey × Item} (l : List (SortKey × Item))
    (acc : List (SortKey × Item)) :
    x ∈ l.foldl (fun acc p => insertByKey p acc) acc ↔ x ∈ acc ∨ x ∈ l := by
  induction l generalizing acc with
  | nil => simp
  | cons p rest ih =>
    rw [List.foldl_cons, ih]
    rw [insertByKey_mem]
    simp
    tauto

theorem sortPairs_mem {x : SortKey × Item} {l : List (SortKey × Item)} :
    x ∈ sortPairs l ↔ x ∈ l := by
  rw [sortPairs, sortPairsAux_mem]
  simp

theorem buildPairs_key {items : List Item} {p : SortKey × Item}
    (hp : p ∈ buildPairs items) : p.1 = itemKey p.2 := by
  rcases List.mem_map.mp hp with ⟨it, _, rfl⟩
  rfl

theorem jsonSortStep_length (items : List Item) :
    (jsonSortStep items).length = items.length := by
  rw [jsonSortStep, List.length_map, sortPairs_length, buildPairs, List.length_map]

theorem jsonSortStep_mem {it : Item} {items : List Item}
    (h : it ∈ jsonSortStep items) : it ∈ items := by
  rcases List.mem_map.mp h with ⟨p, hp, rfl⟩
  rcases List.mem_map.mp (sortPairs_mem.mp hp) with ⟨x, hx, rfl⟩
  exact hx

theorem map_snd_filter_key (l : List (SortKey × Item)) (k : SortKey)
    (hinv : ∀ p ∈ l, p.1 = itemKey p.2) :
    (l.map (fun p => p.2)).filter (fun it => itemKey it = k)
      = (l.filter (fun q => q.1 = k)).map (fun p => p.2) := by
  induction l with
  | nil => rfl
  | cons p t ih =>
    have hp : p.1 = itemKey p.2 := hinv p (List.mem_cons_self p t)
    have ht : ∀ q ∈ t, q.1 = itemKey q.2 :=
      fun q hq => hinv q (List.mem_cons_of_mem p hq)
    rw [List.map_cons, List.filter_cons, List.filter_cons]
    by_cases hk : p.1 = k
    · have hk2 : itemKey p.2 = k := hp ▸ hk
      simp [hk, hk2, ih ht]
    · have hk2 : ¬ itemKey p.2 = k := fun hc => hk (hp ▸ hc)
      simp [hk, hk2, ih ht]

theorem jsonSortStep_filter_key (items : List Item) (k : SortKey) :
    (jsonSortStep items).filter (fun it => itemKey it = k)
      = items.filter (fun it => itemKey it = k) := by
  have hinvS : ∀ p ∈ sortPairs (buildPairs items), p.1 = itemKey p.2 :=
    fun p hp => buildPairs_key (sortPairs_mem.mp hp)
  have hinvB : ∀ p ∈ buildPairs items, p.1 = itemKey p.2 :=
    fun p hp => buildPairs_key hp
  have hmap : (buildPairs items).map (fun p => p.2) = items := by
    rw [buildPairs, List.map_map]
    exact List.map_id items
  calc (jsonSortStep items).filter (fun it => itemKey it = k)
      = ((sortPairs (buildPairs items)).filter (fun q => q.1 = k)).map
          (fun p => p.2) := map_snd_filter_key _ k hinvS
    _ = ((buildPairs items).filter (fun q => q.1 = k)).map (fun p => p.2) := by
          rw [sortPairs_filter_key]
    _ = ((buildPairs items).map (fun p => p.2)).filter
          (fun it => itemKey it = k) := (map_snd_filter_key _ k hinvB).symm
    _ = items.filter (fun it => itemKey it = k) := by rw [hmap]

theorem chainDateLe_of_pairwise {l : List Item}
    (h : l.Pairwise (fun a b => dateLeB a b = true)) : chainDateLe l = true := by
  induction l with
  | nil => rfl
  | cons a rest ih =>
    rcases List.pairwise_cons.mp h with ⟨ha, hrest⟩
    cases rest with
    | nil => rfl
    | cons b r =>
      have hab : dateLeB a b = true := ha b (List.mem_cons_self b r)
      simp [chainDateLe, hab, ih hrest]

theorem jsonSortStep_sorted (items : List Item) :
    chainDateLe (jsonSortStep items) = true := by
  apply chainDateLe_of_pairwise
  rw [jsonSortStep]
  rw [List.pairwise_map]
  have hpw := sortPairs_pairwise (buildPairs items)
  refine List.Pairwise.imp_of_mem ?_ hpw
  intro a b ha hb hab
  have hka : a.1 = itemKey a.2 := buildPairs_key (sortPairs_mem.mp ha)
  have hkb : b.1 = itemKey b.2 := buildPairs_key (sortPairs_mem.mp hb)
  rw [dateLeB, ← hka, ← hkb]
  exact hab

/-! ## Lemmas about CSV deduplication and the JSON key map -/

theorem find?_append_left {α : Type} {l m : List α} {p : α → Bool} {a : α}
    (h : l.find? p = some a) : (l ++ m).find? p = some a := by
  induction l with
  | nil => simp [List.find?] at h
  | cons x t ih =>
    rw [List.cons_append]
    cases hx : p x with
    | true =>
      rw [List.find?_cons_of_pos _ hx] at h ⊢
      exact h
    | false =>
      rw [List.find?_cons_of_neg _ (by simp [hx])] at h ⊢
      exact ih h

theorem dedupByIdAux_congr {seen1 seen2 : List Int}
    (h : ∀ i : Int, i ∈ seen1 ↔ i ∈ seen2) (l : List Item) :
    dedupByIdAux seen1 l = dedupByIdAux seen2 l := by
  induction l generalizing seen1 seen2 with
  | nil => rfl
  | cons x t ih =>
    by_cases hx : x.MESSAGE_ID ∈ seen1
    · rw [dedupByIdAux, dedupByIdAux, if_pos hx, if_pos ((h _).mp hx)]
      exact ih h
    · rw [dedupByIdAux, dedupByIdAux, if_neg hx, if_neg (fun hc => hx ((h _).mpr hc))]
      refine congrArg (x :: ·) (ih ?_)
      intro i
      simp only [List.mem_cons]
      exact or_congr Iff.rfl (h i)

theorem dedupByIdAux_append (l m : List Item) (seen : List Int) :
    dedupByIdAux seen (l ++ m)
      = dedupByIdAux seen l
        ++ dedupByIdAux (l.map (fun it => it.MESSAGE_ID) ++ seen) m := by
  induction l generalizing seen with
  | nil => simp [dedupByIdAux]
  | cons x t ih =>
    by_cases hx : x.MESSAGE_ID ∈ seen
    · rw [List.cons_append, dedupByIdAux, if_pos hx, dedupByIdAux, if_pos hx, ih]
      refine congrArg _ (dedupByIdAux_congr ?_ m)
      intro i
      simp only [List.map_cons, List.cons_append, List.mem_cons, List.mem_append]
      constructor
      · tauto
      · rintro (rfl | h | h) <;> tauto
    · rw [List.cons_append, dedupByIdAux, if_neg hx, dedupByIdAux, if_neg hx, ih]
      rw [List.cons_append]
      refine congrArg (x :: ·) (congrArg _ (dedupByIdAux_congr ?_ m))
      intro i
      simp only [List.map_cons, List.cons_append, List.mem_cons, List.mem_append]
      tauto

theorem dedupByIdAux_eq_self {l : List Item} {seen : List Int}
    (hnd : (l.map (fun it => it.MESSAGE_ID)).Nodup)
    (hdis : ∀ x ∈ l, x.MESSAGE_ID ∉ seen) :
    dedupByIdAux seen l = l := by
  induction l generalizing seen with
  | nil => rfl
  | cons x t ih =>
    rw [List.map_cons, List.nodup_cons] at hnd
    rw [dedupByIdAux, if_neg (hdis x (List.mem_cons_self x t))]
    refine congrArg (x :: ·) (ih hnd.2 ?_)
    intro y hy
    simp only [List.mem_cons]
    rintro (hc | hc)
    · exact hnd.1 (hc ▸ List.mem_map_of_mem _ hy)
    · exact hdis y (List.mem_cons_of_mem x hy) hc

theorem dedupByIdAux_eq_nil {m : List Item} {seen : List Int}
    (h : ∀ x ∈ m, x.MESSAGE_ID ∈ seen) : dedupByIdAux seen m = [] := by
  induction m with
  | nil => rfl
  | cons x t ih =>
    rw [dedupByIdAux, if_pos (h x (List.mem_cons_self x t))]
    exact ih fun y hy => h y (List.mem_cons_of_mem x hy)

theorem dedupByIdAux_find? {l : List Item} {seen : List Int} {k : Int}
    (hk : k ∉ seen) :
    (dedupByIdAux seen l).find? (fun it => it.MESSAGE_ID = k)
      = l.find? (fun it => it.MESSAGE_ID = k) := by
  induction l generalizing seen with
  | nil => rfl
  | cons x t ih =>
    by_cases hx : x.MESSAGE_ID ∈ seen
    · rw [dedupByIdAux, if_pos hx, ih hk]
      have hxk : ¬ x.MESSAGE_ID = k := fun hc => hk (hc ▸ hx)
      rw [List.find?_cons_of_neg _ (by simp [hxk])]
    · rw [dedupByIdAux, if_neg hx]
      by_cases hxk : x.MESSAGE_ID = k
      · rw [List.find?_cons_of_pos _ (by simp [hxk]),
          List.find?_cons_of_pos _ (by simp [hxk])]
      · rw [List.find?_cons_of_neg _ (by simp [hxk]),
          List.find?_cons_of_neg _ (by simp [hxk])]
        refine ih ?_
        simp only [List.mem_cons]
        rintro (hc | hc)
        · exact hxk hc.symm
        · exact hk hc

/-! ### JSON dict lemmas -/

theorem dictUpsert_key_pred {P : Int → Prop} {d : List (Int × Item)} {k : Int}
    {v : Item} (hd : ∀ e ∈ d, P e.1) (hk : P k) :
    ∀ e ∈ dictUpsert d k v, P e.1 := by
  intro e he
  rw [dictUpsert] at he
  by_cases h : d.any (fun e => e.1 = k) = true
  · rw [if_pos h] at he
    rcases List.mem_map.mp he with ⟨x, hx, rfl⟩
    by_cases hxk : x.1 = k
    · simpa [hxk] using hd x hx
    · simpa [hxk] using hd x hx
  · rw [if_neg h] at he
    rcases List.mem_append.mp he with hx | hx
    · exact hd e hx
    · rcases List.mem_singleton.mp hx with rfl
      exact hk

theorem jsonNewData_key_pred {P : Int → Prop} {rows : List Row}
    (hr : ∀ r ∈ rows, P r.message_id) :
    ∀ e ∈ jsonNewData rows, P e.1 := by
  rw [jsonNewData]
  have main : ∀ (rs : List Row) (d : List (Int × Item)),
      (∀ e ∈ d, P e.1) → (∀ r ∈ rs, P r.message_id) →
      ∀ e ∈ rs.foldl (fun d r => dictUpsert d r.message_id (rowToItem r)) d, P e.1 := by
    intro rs
    induction rs with
    | nil => intro d hd _ e he; exact hd e he
    | cons r t ih =>
      intro d hd hr e he
      rw [List.foldl_cons] at he
      refine ih _ (dictUpsert_key_pred hd (hr r (List.mem_cons_self r t)))
        (fun r' hr' => hr r' (List.mem_cons_of_mem r hr')) e he
  intro e he
  exact main rows [] (by simp) hr e he

theorem dictUpsert_entry_id {d : List (Int × Item)} {k : Int} {v : Item}
    (hd : ∀ e ∈ d, e.1 = e.2.MESSAGE_ID) (hv : k = v.MESSAGE_ID) :
    ∀ e ∈ dictUpsert d k v, e.1 = e.2.MESSAGE_ID := by
  intro e he
  rw [dictUpsert] at he
  by_cases h : d.any (fun e => e.1 = k) = true
  · rw [if_pos h] at he
    rcases List.mem_map.mp he with ⟨x, hx, rfl⟩
    by_cases hxk : x.1 = k
    · simpa [hxk] using hxk.trans hv
    · simpa [hxk] using hd x hx
  · rw [if_neg h] at he
    rcases List.mem_append.mp he with hx | hx
    · exact hd e hx
    · rcases List.mem_singleton.mp hx with rfl
      exact hv

theorem jsonNewData_entry_id {rows : List Row} :
    ∀ e ∈ jsonNewData rows, e.1 = e.2.MESSAGE_ID := by
  rw [jsonNewData]
  have main : ∀ (rs : List Row) (d : List (Int × Item)),
      (∀ e ∈ d, e.1 = e.2.MESSAGE_ID) →
      ∀ e ∈ rs.foldl (fun d r => dictUpsert d r.message_id (rowToItem r)) d,
        e.1 = e.2.MESSAGE_ID := by
    intro rs
    induction rs with
    | nil => intro d hd e he; exact hd e he
    | cons r t ih =>
      intro d hd e he
      rw [List.foldl_cons] at he
      exact ih (dictUpsert d r.message_id (rowToItem r))
        (dictUpsert_entry_id hd (show r.message_id = (rowToItem r).MESSAGE_ID from rfl))
        e he
  exact main rows [] (by simp)

theorem jsonAddExisting_eq_self {d : List (Int × Item)} {ex : List Item}
    (h : ∀ it ∈ ex, d.any (fun e => e.1 = it.MESSAGE_ID) = true) :
    jsonAddExisting d ex = d := by
  rw [jsonAddExisting]
  induction ex generalizing d with
  | nil => rfl
  | cons it t ih =>
    rw [List.foldl_cons, if_pos (h it (List.mem_cons_self it t))]
    exact ih fun y hy => h y (List.mem_cons_of_mem it hy)

theorem jsonAddExisting_find? {d : List (Int × Item)} {ex : List Item} {k : Int}
    (h : d.any (fun e => e.1 = k) = true) :
    (jsonAddExisting d ex).find? (fun e => e.1 = k)
      = d.find? (fun e => e.1 = k) := by
  rw [jsonAddExisting]
  induction ex generalizing d with
  | nil => rfl
  | cons it t ih =>
    rw [List.foldl_cons]
    by_cases hny : d.any (fun e => e.1 = it.MESSAGE_ID) = true
    · rw [if_pos hny]
      exact ih h
    · rw [if_neg hny]
      have hsome : ∃ a, d.find? (fun e => e.1 = k) = some a := by
        rcases List.any_eq_true.mp h with ⟨e, he, hek⟩
        have : (d.find? (fun e => e.1 = k)).isSome := by
          refine List.find?_isSome.mpr ⟨e, he, hek⟩
        exact Option.isSome_iff_exists.mp this
      rcases hsome with ⟨a, ha⟩
      have happ : d.any (fun e => e.1 = k) = true →
          (d ++ [(it.MESSAGE_ID, it)]).any (fun e => e.1 = k) = true := by
        intro hh
        rw [List.any_append]
        simp [hh]
      rw [ih (happ h), find?_append_left ha, ha]

theorem jsonNewData_length {rows : List Row}
    (hnd : (rows.map (fun r => r.message_id)).Nodup) :
    (jsonNewData rows).length = rows.length := by
  rw [jsonNewData]
  have main : ∀ (rs : List Row) (d : List (Int × Item)),
      (rs.map (fun r => r.message_id)).Nodup →
      (∀ r ∈ rs, d.any (fun e => e.1 = r.message_id) = false) →
      (rs.foldl (fun d r => dictUpsert d r.message_id (rowToItem r)) d).length
        = d.length + rs.length := by
    intro rs
    induction rs with
    | nil => intro d _ _; simp
    | cons r t ih =>
      intro d hnd hdis
      rw [List.map_cons, List.nodup_cons] at hnd
      rw [List.foldl_cons, dictUpsert,
        if_neg (by simp [hdis r (List.mem_cons_self r t)])]
      rw [ih _ hnd.2 ?_, List.length_append, List.length_cons]
      · simp
        omega
      · intro r' hr'
        rw [List.any_append]
        have h1 : d.any (fun e => e.1 = r'.message_id) = false :=
          hdis r' (List.mem_cons_of_mem r hr')
        have h2 : r.message_id ≠ r'.message_id := by
          intro hc
          exact hnd.1 (hc ▸ List.mem_map_of_mem _ hr')
        simp [h1, h2]
  simpa using main rows [] hnd (by simp)

theorem jsonAddExisting_length {d : List (Int × Item)} {ex : List Item}
    (hnd : (ex.map (fun it => it.MESSAGE_ID)).Nodup)
    (hdis : ∀ it ∈ ex, d.any (fun e => e.1 = it.MESSAGE_ID) = false) :
    (jsonAddExisting d ex).length = d.length + ex.length := by
  rw [jsonAddExisting]
  induction ex generalizing d with
  | nil => simp
  | cons it t ih =>
    rw [List.map_cons, List.nodup_cons] at hnd
    rw [List.foldl_cons, if_neg (by simp [hdis it (List.mem_cons_self it t)])]
    rw [ih hnd.2 ?_, List.length_append, List.length_cons]
    · simp
      omega
    · intro it' hit'
      rw [List.any_append]
      have h1 : d.any (fun e => e.1 = it'.MESSAGE_ID) = false :=
        hdis it' (List.mem_cons_of_mem it hit')
      have h2 : it.MESSAGE_ID ≠ it'.MESSAGE_ID := by
        intro hc
        exact hnd.1 (hc ▸ List.mem_map_of_mem _ hit')
      simp [h1, h2]

/-! ## Lemmas about the forward fetcher -/

theorem scrapeStep_fields (tr : Translator) (topt : Bool) (cwd chat : String)
    (m : Msg) :
    (scrapeStep tr topt cwd chat m).1.message_id = m.id
      ∧ (scrapeStep tr topt cwd chat m).1.date = m.date := by
  simp [scrapeStep]

theorem scrapeLoop_mem {tr : Translator} {topt : Bool} {cwd chat : String}
    {s e : Int} {src : List Msg} {r : Row}
    (h : r ∈ (scrapeLoop tr topt cwd chat s e src).1) :
    ∃ m ∈ src, r.date = m.date ∧ r.message_id = m.id := by
  induction src with
  | nil => simp [scrapeLoop] at h
  | cons m rest ih =>
    rw [scrapeLoop] at h
    by_cases h1 : e < m.date
    · rw [if_pos h1] at h
      simp at h
    · rw [if_neg h1] at h
      by_cases h2 : m.date < s
      · rw [if_pos h2] at h
        rcases ih h with ⟨m', hm', hr⟩
        exact ⟨m', List.mem_cons_of_mem m hm', hr⟩
      · rw [if_neg h2] at h
        simp only [List.mem_cons] at h
        rcases h with rfl | h
        · refine ⟨m, List.mem_cons_self m rest, ?_, ?_⟩ <;> simp [scrapeStep]
        · rcases ih h with ⟨m', hm', hr⟩
          exact ⟨m', List.mem_cons_of_mem m hm', hr⟩

theorem scrapeLoop_window_exact (tr : Translator) (topt : Bool)
    (cwd chat : String) (s e : Int) (src : List Msg)
    (hs : src.Pairwise
      (fun a b => a.date < b.date ∨ (a.date = b.date ∧ a.id ≤ b.id))) :
    ((scrapeLoop tr topt cwd chat s e src).1.map (fun r => (r.date, r.message_id)))
      = (src.filter (fun m => decide (s ≤ m.date) && decide (m.date ≤ e))).map
          (fun m => (m.date, m.id)) := by
  induction src with
  | nil => simp [scrapeLoop]
  | cons m rest ih =>
    rcases List.pairwise_cons.mp hs with ⟨hm, hrest⟩
    rw [scrapeLoop, List.filter_cons]
    by_cases h1 : e < m.date
    · rw [if_pos h1]
      have hcond : (decide (s ≤ m.date) && decide (m.date ≤ e)) = false := by
        simp
        omega
      rw [hcond]
      have hnil : rest.filter (fun m => decide (s ≤ m.date) && decide (m.date ≤ e))
          = [] := by
        refine List.filter_eq_nil_iff.mpr ?_
        intro m' hm'
        have hle : m.date ≤ m'.date := by
          rcases hm m' hm' with h | ⟨h, _⟩ <;> omega
        simp
        omega
      simp [hnil]
    · rw [if_neg h1]
      by_cases h2 : m.date < s
      · rw [if_pos h2]
        have hcond : (decide (s ≤ m.date) && decide (m.date ≤ e)) = false := by
          simp
          omega
        rw [hcond]
        exact ih hrest
      · rw [if_neg h2]
        have hcond : (decide (s ≤ m.date) && decide (m.date ≤ e)) = true := by
          simp
          omega
        rw [hcond]
        simp only [List.map_cons]
        refine congrArg₂ _ ?_ (ih hrest)
        simp [scrapeStep]

theorem scrapeLoop_sorted (tr : Translator) (topt : Bool) (cwd chat : String)
    (s e : Int) (src : List Msg)
    (hs : src.Pairwise
      (fun a b => a.date < b.date ∨ (a.date = b.date ∧ a.id ≤ b.id))) :
    ((scrapeLoop tr topt cwd chat s e src).1).Pairwise
      (fun r r' => r.date < r'.date
        ∨ (r.date = r'.date ∧ r.message_id ≤ r'.message_id)) := by
  induction src with
  | nil => simp [scrapeLoop]
  | cons m rest ih =>
    rcases List.pairwise_cons.mp hs with ⟨hm, hrest⟩
    rw [scrapeLoop]
    by_cases h1 : e < m.date
    · simp [if_pos h1]
    · rw [if_neg h1]
      by_cases h2 : m.date < s
      · rw [if_pos h2]
        exact ih hrest
      · rw [if_neg h2]
        refine List.pairwise_cons.mpr ⟨?_, ih hrest⟩
        intro r' hr'
        rcases scrapeLoop_mem hr' with ⟨m', hm', hd, hi⟩
        have hstep := scrapeStep_fields tr topt cwd chat m
        rw [hstep.1, hstep.2, hd, hi]
        exact hm m' hm'

theorem scrapeLoop_failing_translated (cwd chat : String) (s e : Int)
    (src : List Msg) :
    ((scrapeLoop failingTranslator true cwd chat s e src).1).all
      (fun r => r.translated = "") = true := by
  induction src with
  | nil => simp [scrapeLoop]
  | cons m rest ih =>
    rw [scrapeLoop]
    by_cases h1 : e < m.date
    · simp [if_pos h1]
    · rw [if_neg h1]
      by_cases h2 : m.date < s
      · rw [if_pos h2]
        exact ih
      · rw [if_neg h2]
        simp only [List.all_cons, ih, Bool.and_true]
        simp [scrapeStep, failingTranslator]

theorem scrapeLoop_ids_translator_independent (tr1 tr2 : Translator)
    (topt : Bool) (cwd chat : String) (s e : Int) (src : List Msg) :
    (scrapeLoop tr1 topt cwd chat s e src).1.map (fun r => r.message_id)
      = (scrapeLoop tr2 topt cwd chat s e src).1.map (fun r => r.message_id) := by
  induction src with
  | nil => rfl
  | cons m rest ih =>
    rw [scrapeLoop, scrapeLoop]
    by_cases h1 : e < m.date
    · rw [if_pos h1, if_pos h1]
    · rw [if_neg h1, if_neg h1]
      by_cases h2 : m.date < s
      · rw [if_pos h2, if_pos h2]
        exact ih
      · rw [if_neg h2, if_neg h2]
        simp only [List.map_cons, ih]
        refine congrArg₂ _ ?_ rfl
        simp [scrapeStep]

/-! ## Lemmas about the window resolvers -/

theorem pyToDt_tz_utc {val : Option RawVal} {t : Int} {d : PyDt}
    (h : pyToDt val ⟨t, some 0⟩ = .ok d) : d.tz = some 0 := by
  cases val with
  | none =>
    simp only [pyToDt, Except.ok.injEq] at h
    rw [← h]
  | some rv =>
    cases rv with
    | str s =>
      simp only [pyToDt] at h
      by_cases hv : stripChars s.data = []
      · rw [if_pos hv] at h
        cases h
        rfl
      · rw [if_neg hv] at h
        cases hfmt : tryFormats (stripChars s.data) with
        | some secs =>
          rw [hfmt] at h
          cases h
          rfl
        | none =>
          rw [hfmt] at h
          cases hiso : pyFromIso (stripChars s.data) with
          | some x =>
            rw [hiso] at h
            obtain ⟨xw, xtz⟩ := x
            cases xtz with
            | none =>
              cases h
              rfl
            | some o =>
              cases h
              rfl
          | none =>
            rw [hiso] at h
            cases h
    | dt x =>
      simp only [pyToDt] at h
      cases hx : x.tz with
      | none =>
        rw [hx] at h
        cases h
        rfl
      | some o =>
        rw [hx] at h
        cases h
        rfl

theorem resolveScrapingWindow_props {startRaw endRaw : Option RawVal}
    {t n : Int} {s e : PyDt}
    (h : resolveScrapingWindow startRaw endRaw t n = .ok (s, e)) :
    s.tz = some 0 ∧ e.tz = some 0 ∧ s.utcSeconds ≤ e.utcSeconds := by
  rw [resolveScrapingWindow] at h
  cases h1 : pyToDt startRaw ⟨t, some 0⟩ with
  | error err =>
    rw [h1] at h
    simp [Bind.bind, Except.bind] at h
  | ok s0 =>
    rw [h1] at h
    cases h2 : pyToDt endRaw ⟨n, some 0⟩ with
    | error err =>
      rw [h2] at h
      simp [Bind.bind, Except.bind] at h
    | ok e0 =>
      rw [h2] at h
      simp only [Bind.bind, Except.bind] at h
      have hs0 : s0.tz = some 0 := pyToDt_tz_utc h1
      have he0 : e0.tz = some 0 := pyToDt_tz_utc h2
      have hlt : pyDtLtTrue e0 s0 = decide (e0.wall < s0.wall) := by
        rw [pyDtLtTrue, pyDtLt, hs0, he0]
        by_cases hp : e0.wall < s0.wall <;> simp [hp]
      rw [hlt] at h
      by_cases hb : e0.wall < s0.wall
      · simp only [hb, decide_eq_true_eq, if_pos, pure, Except.pure,
          Except.ok.injEq] at h
        have hA : e0 = s := congrArg Prod.fst h
        have hB : s0 = e := congrArg Prod.snd h
        subst hA
        subst hB
        refine ⟨he0, hs0, ?_⟩
        simp only [PyDt.utcSeconds, hs0, he0, Option.getD_some]
        omega
      · simp only [hb, decide_eq_true_eq, if_neg, pure, Except.pure,
          Except.ok.injEq, not_false_iff] at h
        have hA : s0 = s := congrArg Prod.fst h
        have hB : e0 = e := congrArg Prod.snd h
        subst hA
        subst hB
        refine ⟨hs0, he0, ?_⟩
        simp only [PyDt.utcSeconds, hs0, he0, Option.getD_some]
        omega

theorem pyToDt_unparsable {s : String} {dflt : PyDt}
    (hne : ¬ stripChars s.data = [])
    (hfmt : tryFormats (stripChars s.data) = none)
    (hiso : pyFromIso (stripChars s.data) = none) :
    pyToDt (some (.str s)) dflt = .error (.unrecognized s) := by
  simp only [pyToDt]
  rw [if_neg hne, hfmt, hiso]

/-! ## Lemmas about the artifact filesystem layer -/

theorem matchPat_build (pre ext mid : FName) :
    matchPatB pre ext (pre ++ mid ++ ext) = true := by
  have h1 : pre <+: pre ++ mid ++ ext := ⟨mid ++ ext, by simp⟩
  have h2 : ext <:+ pre ++ mid ++ ext := ⟨pre ++ mid, rfl⟩
  have h3 : pre.length + ext.length ≤ (pre ++ mid ++ ext).length := by
    simp [List.length_append]
  rw [matchPatB, decide_eq_true h1, decide_eq_true h2, decide_eq_true h3]
  rfl

theorem mem_names_fsRemove {fs : Fs} {x m : FName}
    (h : m ∈ (fsRemove fs x).map (fun e => e.1)) :
    m ∈ fs.map (fun e => e.1) ∧ m ≠ x := by
  rcases List.mem_map.mp h with ⟨e, he, rfl⟩
  rw [fsRemove] at he
  have hm := List.mem_filter.mp he
  refine ⟨List.mem_map_of_mem _ hm.1, ?_⟩
  simpa using hm.2

theorem mem_names_fsWrite {fs : Fs} {n m : FName} {v : List Item}
    (h : m ∈ (fsWrite fs n v).map (fun e => e.1)) :
    m = n ∨ (m ∈ fs.map (fun e => e.1) ∧ m ≠ n) := by
  rw [fsWrite, List.map_append] at h
  rcases List.mem_append.mp h with h | h
  · right
    exact mem_names_fsRemove h
  · left
    simpa using h

theorem countMatch_fsWrite (pre ext : FName) (fs : Fs) (n : FName)
    (v : List Item) (hn : matchPatB pre ext n = true) :
    countMatch pre ext (fsWrite fs n v)
      = (((fsRemove fs n).map (fun e => e.1)).filter (matchPatB pre ext)).length
        + 1 := by
  rw [countMatch, fsWrite, List.map_append, List.filter_append]
  simp [hn]

theorem maxNameFold_some (l : List FName) (b : FName) :
    ∃ c, l.foldl
      (fun acc n =>
        match acc with
        | none => some n
        | some b => if lexLt b n then some n else some b) (some b) = some c := by
  induction l generalizing b with
  | nil => exact ⟨b, rfl⟩
  | cons n t ih =>
    rw [List.foldl_cons]
    by_cases hb : lexLt b n = true
    · simpa [hb] using ih n
    · simpa [hb] using ih b

theorem maxName_eq_nil {l : List FName} (h : maxName l = none) : l = [] := by
  cases l with
  | nil => rfl
  | cons n t =>
    rw [maxName, List.foldl_cons] at h
    rcases maxNameFold_some t n with ⟨c, hc⟩
    rw [hc] at h
    cases h

theorem maxNameFold_mem (l : List FName) (b : FName) {x : FName}
    (h : l.foldl
      (fun acc n =>
        match acc with
        | none => some n
        | some b => if lexLt b n then some n else some b) (some b) = some x) :
    x = b ∨ x ∈ l := by
  induction l generalizing b with
  | nil =>
    left
    cases h
    rfl
  | cons n t ih =>
    rw [List.foldl_cons] at h
    dsimp only at h
    by_cases hb : lexLt b n = true
    · rw [if_pos hb] at h
      rcases ih n h with rfl | hx
      · right
        exact List.mem_cons_self _ _
      · right
        exact List.mem_cons_of_mem n hx
    · rw [if_neg hb] at h
      rcases ih b h with rfl | hx
      · left
        rfl
      · right
        exact List.mem_cons_of_mem n hx

theorem maxName_mem {l : List FName} {x : FName} (h : maxName l = some x) :
    x ∈ l := by
  cases l with
  | nil => cases h
  | cons n t =>
    rw [maxName, List.foldl_cons] at h
    dsimp only at h
    rcases maxNameFold_mem t n h with rfl | hx
    · exact List.mem_cons_self _ _
    · exact List.mem_cons_of_mem n hx

theorem eq_singleton_of_len_le_one {l : List FName} {x : FName}
    (hlen : l.length ≤ 1) (hx : x ∈ l) : l = [x] := by
  cases l with
  | nil => cases hx
  | cons a t =>
    cases t with
    | nil =>
      rcases List.mem_singleton.mp hx with rfl
      rfl
    | cons b u => simp [List.length_cons] at hlen

theorem appendWrite_count (pre ext freshMid : FName) (freshRecs : List Item)
    (mergeF : List Item → List Item) (fs : Fs)
    (h1 : countMatch pre ext fs ≤ 1) :
    countMatch pre ext (appendWrite pre ext freshMid freshRecs mergeF fs) = 1 := by
  rw [countMatch] at h1
  rw [appendWrite]
  cases hmax : maxName ((fs.map (fun e => e.1)).filter (matchPatB pre ext)) with
  | none =>
    have hmatches : (fs.map (fun e => e.1)).filter (matchPatB pre ext) = [] :=
      maxName_eq_nil hmax
    have hnone : ∀ m ∈ fs.map (fun e => e.1), ¬ matchPatB pre ext m = true := by
      intro m hm hp
      have : m ∈ (fs.map (fun e => e.1)).filter (matchPatB pre ext) :=
        List.mem_filter.mpr ⟨hm, hp⟩
      rw [hmatches] at this
      cases this
    rw [countMatch_fsWrite pre ext fs _ freshRecs (matchPat_build pre ext freshMid)]
    have hz : ((fsRemove fs (pre ++ freshMid ++ ext)).map (fun e => e.1)).filter
        (matchPatB pre ext) = [] := by
      refine List.filter_eq_nil_iff.mpr ?_
      intro m hm
      exact hnone m (mem_names_fsRemove hm).1
    rw [hz]
    rfl
  | some latest =>
    dsimp only
    have hlmem : latest ∈ (fs.map (fun e => e.1)).filter (matchPatB pre ext) :=
      maxName_mem hmax
    have hmatches : (fs.map (fun e => e.1)).filter (matchPatB pre ext) = [latest] :=
      eq_singleton_of_len_le_one h1 hlmem
    have honly : ∀ m ∈ fs.map (fun e => e.1), matchPatB pre ext m = true →
        m = latest := by
      intro m hm hp
      have : m ∈ (fs.map (fun e => e.1)).filter (matchPatB pre ext) :=
        List.mem_filter.mpr ⟨hm, hp⟩
      rw [hmatches] at this
      exact List.mem_singleton.mp this
    by_cases heq :
        latest = pre ++ rangeMid (mergeF ((lookupFs fs latest).getD [])) ++ ext
    · rw [if_pos heq]
      rw [countMatch_fsWrite pre ext fs _ _ (matchPat_build pre ext _)]
      have hz : ((fsRemove fs
          (pre ++ rangeMid (mergeF ((lookupFs fs latest).getD [])) ++ ext)).map
            (fun e => e.1)).filter (matchPatB pre ext) = [] := by
        refine List.filter_eq_nil_iff.mpr ?_
        intro m hm hp
        rcases mem_names_fsRemove hm with ⟨hmem, hne⟩
        exact hne ((honly m hmem hp).trans heq)
      rw [hz]
      rfl
    · rw [if_neg heq]
      rw [countMatch_fsWrite pre ext _ _ _ (matchPat_build pre ext _)]
      have hz : ((fsRemove (fsRename fs latest
          (pre ++ rangeMid (mergeF ((lookupFs fs latest).getD [])) ++ ext))
          (pre ++ rangeMid (mergeF ((lookupFs fs latest).getD [])) ++ ext)).map
            (fun e => e.1)).filter (matchPatB pre ext) = [] := by
        refine List.filter_eq_nil_iff.mpr ?_
        intro m hm hp
        rcases mem_names_fsRemove hm with ⟨hmem, hne⟩
        rw [fsRename] at hmem
        rcases mem_names_fsWrite hmem with rfl | ⟨hmem2, _⟩
        · exact hne rfl
        · rcases mem_names_fsRemove hmem2 with ⟨hmem3, hne3⟩
          exact hne3 (honly m hmem3 hp)
      rw [hz]
      rfl

/-! ## Claim theorems -/

/-- C1 counterexample: the backward-mode fetcher (`utils_scraping.mining`)
returns accepted items newest-first without reversing them, so the returned
sequence is not sorted ascending by timestamp: on a source yielding the
2024-01-09 message before the 2024-01-08 one (both inside the cutoff), the
run succeeds with the dates in descending order. -/
theorem mining_backward_not_chronological :
    ((miningRun identityTranslator "w" "p" 5 tJan10 [msgJan9, msgJan8]).toOption.map
        (fun p => p.1.map (fun r => r.date)))
      = some [msgJan9.date, msgJan8.date]
    ∧ msgJan8.date < msgJan9.date
    ∧ ¬ List.Pairwise (fun a b : Int => a ≤ b) [msgJan9.date, msgJan8.date] := by
  refine ⟨by decide, by decide, ?_⟩
  intro h
  rcases List.pairwise_cons.mp h with ⟨hle, _⟩
  have := hle msgJan8.date (List.mem_singleton.mpr rfl)
  revert this
  decide

/-- C1 (amended): in forward mode (`scraping.scraping`), when the source
yields items ascending by timestamp with ids as tiebreak, the batch contains
exactly the items whose timestamp lies in the inclusive window and is sorted
ascending by timestamp with ties broken by ascending message id; the
backward fetcher (`mining`) does not reverse its output and gives no such
guarantee. -/
theorem scraping_forward_window_exact_sorted (tr : Translator) (topt : Bool)
    (cwd chat : String) (s e : Int) (src : List Msg)
    (hs : src.Pairwise
      (fun a b => a.date < b.date ∨ (a.date = b.date ∧ a.id ≤ b.id))) :
    ((scrapeLoop tr topt cwd chat s e src).1.map (fun r => (r.date, r.message_id)))
        = (src.filter (fun m => decide (s ≤ m.date) && decide (m.date ≤ e))).map
            (fun m => (m.date, m.id))
    ∧ ((scrapeLoop tr topt cwd chat s e src).1).Pairwise
        (fun r r' => r.date < r'.date
          ∨ (r.date = r'.date ∧ r.message_id ≤ r'.message_id)) :=
  ⟨scrapeLoop_window_exact tr topt cwd chat s e src hs,
   scrapeLoop_sorted tr topt cwd chat s e src hs⟩

/-- C1 witness: the forward fetcher evaluated on a concrete sorted source. -/
theorem scraping_forward_window_exact_sorted_witness :
    ([msgJan8, msgJan9].Pairwise
      (fun a b : Msg => a.date < b.date ∨ (a.date = b.date ∧ a.id ≤ b.id)))
    ∧ (((scrapeLoop identityTranslator false "w" "c" (secondsOf 2024 1 8 0 0 0)
          (secondsOf 2024 1 8 23 0 0) [msgJan8, msgJan9]).1.map
            (fun r => (r.date, r.message_id)))
          = ([msgJan8, msgJan9].filter
              (fun m => decide (secondsOf 2024 1 8 0 0 0 ≤ m.date)
                && decide (m.date ≤ secondsOf 2024 1 8 23 0 0))).map
              (fun m => (m.date, m.id))
        ∧ ((scrapeLoop identityTranslator false "w" "c" (secondsOf 2024 1 8 0 0 0)
            (secondsOf 2024 1 8 23 0 0) [msgJan8, msgJan9]).1).Pairwise
            (fun r r' => r.date < r'.date
              ∨ (r.date = r'.date ∧ r.message_id ≤ r'.message_id))) :=
  ⟨by decide,
   scraping_forward_window_exact_sorted identityTranslator false "w" "c"
     (secondsOf 2024 1 8 0 0 0) (secondsOf 2024 1 8 23 0 0) [msgJan8, msgJan9]
     (by decide)⟩

/-- C2 counterexample: in the CSV append merge, a record of the prior
artifact sharing its `MESSAGE_ID` with a record of the new batch is the one
kept (`concat([existing, new])` followed by `drop_duplicates` keeps the
first occurrence), so the new batch's copy does not win: merging the fresh
copy of message 1 preserves the prior body text `old`. -/
theorem csv_append_keeps_prior_copy :
    (csvExportRecords (some [itemOld1]) [rowNew1]).map (fun it => it.MESSAGE)
        = ["old"]
    ∧ rowNew1.message = "new"
    ∧ rowNew1.message_id = itemOld1.MESSAGE_ID := by
  decide

/-- C2 (amended): in the JSON append merge the new batch's copy of a shared
`message_id` wins (prior records are only added under ids absent from the
new batch), while in the CSV append merge the prior artifact's copy wins
(the existing frame is concatenated first and `drop_duplicates` keeps first
occurrences). -/
theorem merge_shared_id_winner_by_format (rows : List Row) (ex : List Item)
    (k : Int)
    (hnew : (jsonNewData rows).any (fun e => e.1 = k) = true)
    (hex : ∃ a, ex.find? (fun it => it.MESSAGE_ID = k) = some a) :
    (jsonAddExisting (jsonNewData rows) ex).find? (fun e => e.1 = k)
        = (jsonNewData rows).find? (fun e => e.1 = k)
    ∧ (csvExportRecords (some ex) rows).find? (fun it => it.MESSAGE_ID = k)
        = ex.find? (fun it => it.MESSAGE_ID = k) := by
  refine ⟨jsonAddExisting_find? hnew, ?_⟩
  rcases hex with ⟨a, ha⟩
  rw [csvExportRecords, dedupById, dedupByIdAux_find? (by simp),
    find?_append_left ha, ha]

/-- C2 witness: the two merges evaluated at the shared id 1. -/
theorem merge_shared_id_winner_by_format_witness :
    ((jsonNewData [rowNew1]).any (fun e => e.1 = 1) = true)
    ∧ (∃ a, [itemOld1].find? (fun it => it.MESSAGE_ID = 1) = some a)
    ∧ ((jsonAddExisting (jsonNewData [rowNew1]) [itemOld1]).find?
          (fun e => e.1 = 1) = (jsonNewData [rowNew1]).find? (fun e => e.1 = 1)
        ∧ (csvExportRecords (some [itemOld1]) [rowNew1]).find?
            (fun it => it.MESSAGE_ID = 1)
          = [itemOld1].find? (fun it => it.MESSAGE_ID = 1)) :=
  ⟨by decide, ⟨itemOld1, by decide⟩,
   merge_shared_id_winner_by_format [rowNew1] [itemOld1] 1 (by decide)
     ⟨itemOld1, by decide⟩⟩

/-- C3 counterexample: the filename resolver (`utils._norm_dt`) does not
normalize the two bounds to one reference timezone: for the resolvable pair
`2024-01-01` (six-format parse, kept naive) and `2024-01-02T00:00:00+05:00`
(ISO fallback, kept at its own +05:00 offset) the resolved bounds carry
different timezone references. -/
theorem norm_dt_mixed_timezone_refs :
    (resolveNormWindow (some (.str "2024-01-01"))
        (some (.str "2024-01-02T00:00:00+05:00")) 0 99).1.tz = none
    ∧ (resolveNormWindow (some (.str "2024-01-01"))
        (some (.str "2024-01-02T00:00:00+05:00")) 0 99).2.tz = some 300
    ∧ ¬ ((resolveNormWindow (some (.str "2024-01-01"))
        (some (.str "2024-01-02T00:00:00+05:00")) 0 99).1.tz
      = (resolveNormWindow (some (.str "2024-01-01"))
        (some (.str "2024-01-02T00:00:00+05:00")) 0 99).2.tz) := by
  decide

/-- C3 (amended): the fetch-window resolver (`scraping._to_dt` plus the swap
step) does satisfy the claim: every successfully resolved window has both
bounds timezone-aware in UTC and `start <= end`; only the filename resolver
(`utils._norm_dt`) omits the normalization. -/
theorem to_dt_window_utc_ordered (startRaw endRaw : Option RawVal) (t n : Int)
    (s e : PyDt)
    (h : resolveScrapingWindow startRaw endRaw t n = .ok (s, e)) :
    s.tz = some 0 ∧ e.tz = some 0 ∧ s.utcSeconds ≤ e.utcSeconds :=
  resolveScrapingWindow_props h

/-- C3 witness: resolution of the swapped pair `2024-01-03`, `2024-01-01`. -/
theorem to_dt_window_utc_ordered_witness :
    (resolveScrapingWindow (some (.str "2024-01-03")) (some (.str "2024-01-01"))
        0 99
      = .ok (⟨secondsOf 2024 1 1 0 0 0, some 0⟩, ⟨secondsOf 2024 1 3 0 0 0, some 0⟩))
    ∧ ((⟨secondsOf 2024 1 1 0 0 0, some 0⟩ : PyDt).tz = some 0
        ∧ (⟨secondsOf 2024 1 3 0 0 0, some 0⟩ : PyDt).tz = some 0
        ∧ (⟨secondsOf 2024 1 1 0 0 0, some 0⟩ : PyDt).utcSeconds
            ≤ (⟨secondsOf 2024 1 3 0 0 0, some 0⟩ : PyDt).utcSeconds) :=
  ⟨by rfl,
   to_dt_window_utc_ordered (some (.str "2024-01-03")) (some (.str "2024-01-01"))
     0 99 _ _ (by rfl)⟩

/-- C4: a non-empty textual date that matches none of the six accepted
formats and also fails the ISO fallback makes the run fail with the
`Unrecognized date format` error identifying the offending input — in
whichever bound position it occurs — and is never silently replaced by a
default: the error is returned for every choice of defaults. -/
theorem unparsable_date_errors_not_defaulted (tr : Translator) (topt : Bool)
    (cwd chat : String) (v : String) (endRaw : Option RawVal) (t n : Int)
    (source : List Msg)
    (hne : ¬ stripChars v.data = [])
    (hfmt : tryFormats (stripChars v.data) = none)
    (hiso : pyFromIso (stripChars v.data) = none) :
    scrapingRun tr topt cwd chat (some (.str v)) endRaw t n source
        = .error (.unrecognized v)
    ∧ (∀ tN nN : Int,
        startResolveSeq (some (.str v)) endRaw t n tN nN
          = .error (.unrecognized v))
    ∧ ∀ (startRaw : Option RawVal) (s0 : PyDt),
        pyToDt startRaw ⟨t, some 0⟩ = .ok s0 →
        scrapingRun tr topt cwd chat startRaw (some (.str v)) t n source
          = .error (.unrecognized v) := by
  have hbad : ∀ dflt : PyDt,
      pyToDt (some (.str v)) dflt = .error (.unrecognized v) :=
    fun dflt => pyToDt_unparsable hne hfmt hiso
  have hres : resolveScrapingWindow (some (.str v)) endRaw t n
      = .error (.unrecognized v) := by
    rw [resolveScrapingWindow, hbad ⟨t, some 0⟩]
    rfl
  refine ⟨?_, ?_, ?_⟩
  · rw [scrapingRun, hres]
    rfl
  · intro tN nN
    rw [startResolveSeq, hres]
    rfl
  · intro startRaw s0 h0
    have hres : resolveScrapingWindow startRaw (some (.str v)) t n
        = .error (.unrecognized v) := by
      rw [resolveScrapingWindow, h0]
      simp only [Bind.bind, Except.bind]
      rw [hbad ⟨n, some 0⟩]
    rw [scrapingRun, hres]
    rfl

/-- C4 witness: the unparsable input `hello` evaluated through the run. -/
theorem unparsable_date_errors_not_defaulted_witness :
    (¬ stripChars ("hello").data = [])
    ∧ tryFormats (stripChars ("hello").data) = none
    ∧ pyFromIso (stripChars ("hello").data) = none
    ∧ (scrapingRun identityTranslator false "w" "c" (some (.str "hello")) none
          0 99 [] = .error (.unrecognized "hello")
        ∧ (∀ tN nN : Int,
            startResolveSeq (some (.str "hello")) none 0 99 tN nN
              = .error (.unrecognized "hello"))
        ∧ ∀ (startRaw : Option RawVal) (s0 : PyDt),
            pyToDt startRaw ⟨0, some 0⟩ = .ok s0 →
            scrapingRun identityTranslator false "w" "c" startRaw
              (some (.str "hello")) 0 99 []
              = .error (.unrecognized "hello")) :=
  ⟨by decide, by decide, by decide,
   unparsable_date_errors_not_defaulted identityTranslator false "w" "c"
     "hello" none 0 99 [] (by decide) (by decide) (by decide)⟩

/-- C5: append-mode export is idempotent with respect to the batch — for a
batch with distinct message ids (the data-model invariant), exporting it and
then exporting it again in append mode yields, in both formats, an artifact
with the same record count as after the first export. -/
theorem append_export_idempotent_counts (rows : List Row)
    (hnd : (rows.map (fun r => r.message_id)).Nodup) :
    (csvExportRecords (some (csvExportRecords none rows)) rows).length
        = (csvExportRecords none rows).length
    ∧ (jsonExportRecords (some (jsonExportRecords none rows)) rows).length
        = (jsonExportRecords none rows).length := by
  constructor
  · have hids : ((rows.map rowToItem).map (fun it => it.MESSAGE_ID)).Nodup := by
      rw [List.map_map]
      exact hnd
    have heq : csvExportRecords (some (csvExportRecords none rows)) rows
        = rows.map rowToItem := by
      rw [csvExportRecords, csvExportRecords, dedupById, dedupByIdAux_append]
      rw [dedupByIdAux_eq_self hids (by simp)]
      rw [dedupByIdAux_eq_nil ?_, List.append_nil]
      intro x hx
      rw [List.mem_append]
      left
      exact List.mem_map_of_mem _ hx
    rw [heq, csvExportRecords]
  · have hself : jsonAddExisting (jsonNewData rows)
        (jsonSortStep ((jsonNewData rows).map (fun e => e.2)))
        = jsonNewData rows := by
      refine jsonAddExisting_eq_self ?_
      intro it hit
      rcases List.mem_map.mp (jsonSortStep_mem hit) with ⟨e, he, rfl⟩
      refine List.any_eq_true.mpr ⟨e, he, ?_⟩
      simp [jsonNewData_entry_id e he]
    simp only [jsonExportRecords, jsonSortSafe, hself]

/-- C5 witness: the double export of a two-row batch. -/
theorem append_export_idempotent_counts_witness :
    ((([rowJan1, rowJan2].map (fun r => r.message_id)).Nodup))
    ∧ ((csvExportRecords (some (csvExportRecords none [rowJan1, rowJan2]))
          [rowJan1, rowJan2]).length
        = (csvExportRecords none [rowJan1, rowJan2]).length
      ∧ (jsonExportRecords (some (jsonExportRecords none [rowJan1, rowJan2]))
          [rowJan1, rowJan2]).length
        = (jsonExportRecords none [rowJan1, rowJan2]).length) :=
  ⟨by decide, append_export_idempotent_counts [rowJan1, rowJan2] (by decide)⟩

/-- C6 counterexample: the CSV append merge does not re-sort the union
chronologically — merging a prior artifact dated 2024-02-01 with a new
batch dated 2024-01-01 (disjoint ids) persists the records in concatenation
order, which is not ascending by timestamp. -/
theorem csv_append_union_not_resorted :
    chainDateLe (csvExportRecords (some [itemFeb]) [rowJan1]) = false
    ∧ (csvExportRecords (some [itemFeb]) [rowJan1]).length = 1 + 1 := by
  decide

/-- C6 (amended): appending a batch with ids disjoint from the prior
artifact yields `len(B1)+len(B2)` records in both formats; the JSON union
is re-sorted chronologically ascending by timestamp, while the CSV union is
persisted in concatenation order (prior records first), not re-sorted. -/
theorem append_union_counts_json_sorted (rows : List Row) (ex : List Item)
    (hnd1 : (rows.map (fun r => r.message_id)).Nodup)
    (hnd2 : (ex.map (fun it => it.MESSAGE_ID)).Nodup)
    (hdis : ∀ r ∈ rows, ∀ it ∈ ex, ¬ r.message_id = it.MESSAGE_ID) :
    csvExportRecords (some ex) rows = ex ++ rows.map rowToItem
    ∧ (csvExportRecords (some ex) rows).length = ex.length + rows.length
    ∧ (jsonExportRecords (some ex) rows).length = rows.length + ex.length
    ∧ chainDateLe (jsonExportRecords (some ex) rows) = true := by
  have hids : ((rows.map rowToItem).map (fun it => it.MESSAGE_ID)).Nodup := by
    rw [List.map_map]
    exact hnd1
  have hcsv : csvExportRecords (some ex) rows = ex ++ rows.map rowToItem := by
    rw [csvExportRecords, dedupById, dedupByIdAux_append,
      dedupByIdAux_eq_self hnd2 (by simp), dedupByIdAux_eq_self hids ?_]
    intro x hx
    rcases List.mem_map.mp hx with ⟨r, hr, rfl⟩
    rw [List.append_nil, List.mem_map]
    rintro ⟨it, hit, hid⟩
    exact hdis r hr it hit hid.symm
  have hdisj : ∀ it ∈ ex,
      (jsonNewData rows).any (fun e => e.1 = it.MESSAGE_ID) = false := by
    intro it hit
    rw [← Bool.not_eq_true, List.any_eq_true]
    rintro ⟨e, he, hek⟩
    have hkey := jsonNewData_key_pred
      (P := fun k => ∃ r ∈ rows, r.message_id = k) (fun r hr => ⟨r, hr, rfl⟩) e he
    rcases hkey with ⟨r, hr, hrk⟩
    have : e.1 = it.MESSAGE_ID := by simpa using hek
    exact hdis r hr it hit (hrk.trans this)
  refine ⟨hcsv, ?_, ?_, ?_⟩
  · rw [hcsv]
    simp
  · simp only [jsonExportRecords, jsonSortSafe, jsonSortStep_length,
      List.length_map]
    rw [jsonAddExisting_length hnd2 hdisj, jsonNewData_length hnd1]
  · simp only [jsonExportRecords, jsonSortSafe]
    exact jsonSortStep_sorted _

/-- C6 witness: the disjoint merge of the February artifact with the
January batch. -/
theorem append_union_counts_json_sorted_witness :
    (([rowJan1].map (fun r => r.message_id)).Nodup)
    ∧ (([itemFeb].map (fun it => it.MESSAGE_ID)).Nodup)
    ∧ (∀ r ∈ [rowJan1], ∀ it ∈ [itemFeb], ¬ r.message_id = it.MESSAGE_ID)
    ∧ (csvExportRecords (some [itemFeb]) [rowJan1]
          = [itemFeb] ++ [rowJan1].map rowToItem
        ∧ (csvExportRecords (some [itemFeb]) [rowJan1]).length
            = [itemFeb].length + [rowJan1].length
        ∧ (jsonExportRecords (some [itemFeb]) [rowJan1]).length
            = [rowJan1].length + [itemFeb].length
        ∧ chainDateLe (jsonExportRecords (some [itemFeb]) [rowJan1]) = true) :=
  ⟨by decide, by decide, by decide,
   append_union_counts_json_sorted [rowJan1] [itemFeb] (by decide) (by decide)
     (by decide)⟩

/-- C7: contrary to the claim (and to the comment in the source), when
translation is enabled and the original text is empty, `scraping.scraping`
invokes the translator with the empty string itself (`message.text or ''`),
not with the fixed placeholder; the earlier revision `utils_scraping.mining`
is the one that substitutes the placeholder. -/
theorem scraping_empty_text_translator_call :
    (scrapeLoop identityTranslator true "w" "c" (secondsOf 2024 1 9 0 0 0)
        tJan10 [msgNoText]).2 = [""]
    ∧ ((miningLoop identityTranslator "w" "p"
          (dtChars ⟨secondsOf 2024 1 8 0 0 0, none⟩) [msgNoText]).toOption.map
          (fun p => p.2)) = some [placeholderText]
    ∧ ¬ placeholderText = "" := by
  refine ⟨by decide, by decide, by decide⟩

/-- C8 counterexample: in `utils_scraping.mining` the translation call has
no exception handler, so a failing translator aborts the whole run instead
of degrading the field: the run on a single in-range message returns the
error. -/
theorem mining_translator_failure_aborts :
    miningRun failingTranslator "w" "p" 5 tJan10 [msgJan8] = .error ()
    ∧ (miningRun failingTranslator "w" "p" 5 tJan10 [msgJan8]).isOk = false := by
  constructor
  · rfl
  · decide

/-- C8 (amended): in `scraping.scraping` a translator failure is non-fatal:
every accepted record's translated-text field degrades to the empty string
and the accepted id sequence is identical to that of any non-failing
translator, so fetching continues with the remaining messages; in
`utils_scraping.mining` the failure instead propagates and aborts the
run. -/
theorem scraping_translator_failure_nonfatal (cwd chat : String) (s e : Int)
    (src : List Msg) (tr : Translator) :
    ((scrapeLoop failingTranslator true cwd chat s e src).1).all
        (fun r => r.translated = "") = true
    ∧ (scrapeLoop failingTranslator true cwd chat s e src).1.map
          (fun r => r.message_id)
        = (scrapeLoop tr true cwd chat s e src).1.map (fun r => r.message_id) :=
  ⟨scrapeLoop_failing_translated cwd chat s e src,
   scrapeLoop_ids_translator_independent failingTranslator tr true cwd chat s e src⟩

/-- C9 counterexample: an append-mode CSV export against a directory already
holding two matching artifacts merges and renames only the lexicographically
last one; afterwards two live artifacts for the target and format still
exist, refuting the at-most-one postcondition. -/
theorem csv_append_two_artifacts_remain :
    countMatch (namePre "c") csvExt fsTwoCsv = 2
    ∧ countMatch (namePre "c") csvExt
        (exportCsvFs false true "c" "sfx" [rowJan1] fsTwoCsv) = 2 := by
  decide

/-- C9 (amended): when at most one prior artifact matches the target's
pattern for the format, a non-empty append-mode export leaves exactly one
live artifact for that target and format (the prior file, if any, is
renamed or overwritten in place); with several pre-existing matching files
the surplus ones survive the export, as the counterexample shows. -/
theorem append_single_prior_single_artifact (chat suffix : String)
    (rows : List Row) (fs : Fs)
    (hcsv : countMatch (namePre chat) csvExt fs ≤ 1)
    (hjson : countMatch (namePre chat) jsonExt fs ≤ 1) :
    countMatch (namePre chat) csvExt
        (exportCsvFs false true chat suffix rows fs) = 1
    ∧ countMatch (namePre chat) jsonExt
        (exportJsonFs false true chat suffix rows fs) = 1 := by
  constructor
  · have h := appendWrite_count (namePre chat) csvExt suffix.data
      (csvExportRecords none rows) (fun ex => csvExportRecords (some ex) rows)
      fs hcsv
    simpa [exportCsvFs] using h
  · have h := appendWrite_count (namePre chat) jsonExt
      (rangeMid (jsonExportRecords none rows)) (jsonExportRecords none rows)
      (fun ex => jsonExportRecords (some ex) rows) fs hjson
    simpa [exportJsonFs] using h

/-- C9 witness: the append exports on a directory holding one artifact. -/
theorem append_single_prior_single_artifact_witness :
    (countMatch (namePre "c") csvExt fsOneCsv ≤ 1)
    ∧ (countMatch (namePre "c") jsonExt fsOneCsv ≤ 1)
    ∧ (countMatch (namePre "c") csvExt
          (exportCsvFs false true "c" "sfx" [rowJan1] fsOneCsv) = 1
        ∧ countMatch (namePre "c") jsonExt
          (exportJsonFs false true "c" "sfx" [rowJan1] fsOneCsv) = 1) :=
  ⟨by decide, by decide,
   append_single_prior_single_artifact "c" "sfx" [rowJan1] fsOneCsv (by decide)
     (by decide)⟩

/-- C10: in the chronological sort of the merged JSON export, every record
whose DATE fails to parse sorts after all records with parsable dates, the
sort is stable (records with equal sort keys keep their pre-sort relative
order), and if building the sort keys fails the merged order is left
unchanged. -/
theorem json_sort_unparsable_last_stable_or_unchanged (items : List Item) :
    (jsonSortStep items).Pairwise
        (fun a b => itemKey a = none → itemKey b = none)
    ∧ chainDateLe (jsonSortStep items) = true
    ∧ (∀ k : SortKey,
        (jsonSortStep items).filter (fun it => itemKey it = k)
          = items.filter (fun it => itemKey it = k))
    ∧ jsonSortSafe (.error ()) items = items := by
  refine ⟨?_, jsonSortStep_sorted items, fun k => jsonSortStep_filter_key items k,
    rfl⟩
  rw [jsonSortStep, List.pairwise_map]
  refine List.Pairwise.imp_of_mem ?_ (sortPairs_pairwise (buildPairs items))
  intro a b ha hb hab hnone
  have hka := buildPairs_key (sortPairs_mem.mp ha)
  have hkb := buildPairs_key (sortPairs_mem.mp hb)
  rw [← hka] at hnone
  rw [← hkb]
  rw [hnone] at hab
  cases hb1 : b.1 with
  | none => rfl
  | some y =>
    rw [hb1] at hab
    simp [keyLE] at hab

end TelegramScraper
